import Mathlib
/-!
# Verification of the simpleice ICE-record lifecycle and store

Shallow embedding of `src/parser.rs` (the `Ice` record and the JSON store
functions `get_ices` / `write_ices`) and of the lifecycle commands in
`src/commands.rs` (`create_ice`, `activate_ice`, `deactivate_ice`, `edit_ice`).

Modelling conventions:
* The backing file is an `Option String` (`none` = the path does not exist,
  `some content` = the file exists with exactly that content).  I/O failures
  other than existence are outside the model.
* Rust panics (`unwrap` on `Err`/`None`, out-of-bounds indexing) are modelled
  by a dedicated `panicked` outcome constructor.
* `chrono::DateTime<Local>` is modelled at the granularity carried by the
  validated `"%F %R"` input format (year/month/day/hour/minute), with
  lexicographic comparison standing for instant comparison; the single local
  timezone reference of the program is left implicit.  Its serde serialized
  form is modelled as an RFC3339-style string with the seconds and offset
  fields fixed (`:00+00:00`).
* `serde_json` is modelled by an executable JSON printer/parser over the JSON
  fragment the record format uses (null, booleans, strings, arrays, objects);
  the printer mirrors `serde_json::to_writer` (compact form, struct fields in
  declaration order), the parser is a recursive-descent reader with a fuel
  bound standing for serde's recursion limit.
-/

/-- Decimal digit character for `n % 10`. -/
def digitChar (n : Nat) : Char :=
  match n % 10 with
  | 0 => '0' | 1 => '1' | 2 => '2' | 3 => '3' | 4 => '4'
  | 5 => '5' | 6 => '6' | 7 => '7' | 8 => '8' | _ => '9'

/-- Decimal digits, most significant first; the fuel argument (any bound
strictly above `n`) keeps the recursion structural. -/
def natDigitsAux : Nat → Nat → List Char
  | 0, _ => []
  | Nat.succ fuel, n =>
    if n < 10 then [digitChar n]
    else natDigitsAux fuel (n / 10) ++ [digitChar (n % 10)]

/-- Decimal digits of `n`, most significant first. -/
def natDigits (n : Nat) : List Char := natDigitsAux (n + 1) n

/-- Digits of `n`, left padded with zeros to width `k` (chrono-style zero
padding, e.g. `%Y`/`%m`). -/
def natPad (k n : Nat) : List Char :=
  List.replicate (k - (natDigits n).length) '0' ++ natDigits n

/-- Is `c` a decimal digit. -/
def isDigitC (c : Char) : Bool := 48 ≤ c.toNat && c.toNat ≤ 57

/-- Value of a digit string, accumulator style. -/
def digitsToNat (acc : Nat) : List Char → Nat
  | [] => acc
  | c :: cs => digitsToNat (acc * 10 + (c.toNat - 48)) cs

/-- Longest digit prefix. -/
def takeDigits : List Char → List Char
  | [] => []
  | c :: cs => if isDigitC c then c :: takeDigits cs else []

/-- Rest after the longest digit prefix. -/
def dropDigits : List Char → List Char
  | [] => []
  | c :: cs => if isDigitC c then dropDigits cs else c :: cs

/-- Head of `rest` (if any) is not a digit: the condition under which a
maximal-munch digit scan stops exactly at `rest`. -/
def headNonDigit : List Char → Prop
  | [] => True
  | c :: _ => isDigitC c = false

/-- Model of `chrono::DateTime<Local>` at the granularity of the validated
`"%F %R"` input format (`yyyy-mm-dd HH:MM`): year, month, day, hour, minute.
The single local timezone of the program is implicit; comparison is
lexicographic, matching instant comparison for calendar dates rendered in one
fixed timezone. -/
structure DateTime where
  year : Nat
  month : Nat
  day : Nat
  hour : Nat
  minute : Nat
deriving DecidableEq, Repr

/-- Strict instant comparison `a < b` (the `v > today` check of
`activate_ice` is `ltb today v`). -/
def DateTime.ltb (a b : DateTime) : Bool :=
  if a.year ≠ b.year then decide (a.year < b.year)
  else if a.month ≠ b.month then decide (a.month < b.month)
  else if a.day ≠ b.day then decide (a.day < b.day)
  else if a.hour ≠ b.hour then decide (a.hour < b.hour)
  else decide (a.minute < b.minute)

/-- chrono `"%F %R"` rendering (`Ice::get_date`): `yyyy-mm-dd HH:MM`. -/
def formatFR (d : DateTime) : String :=
  String.mk (natPad 4 d.year ++ ('-' :: (natPad 2 d.month ++ ('-' :: (natPad 2 d.day
    ++ (' ' :: (natPad 2 d.hour ++ (':' :: natPad 2 d.minute))))))))

/-- The serde serialization of `send_date` (chrono RFC3339 form), with the
seconds and timezone-offset components fixed by the model (`:00+00:00`). -/
def renderDate (d : DateTime) : List Char :=
  natPad 4 d.year ++ ('-' :: (natPad 2 d.month ++ ('-' :: (natPad 2 d.day
    ++ ('T' :: (natPad 2 d.hour ++ (':' :: (natPad 2 d.minute
    ++ ([':', '0', '0', '+', '0', '0', ':', '0', '0'] ++ [])))))))))

/-- Maximal-munch decimal field: the digit prefix and its value. -/
def parseNatField (s : List Char) : Option (Nat × List Char) :=
  if takeDigits s = [] then none
  else some (digitsToNat 0 (takeDigits s), dropDigits s)

/-- Expect one literal character at the front of `s`. -/
def expectChar (c : Char) (s : List Char) : Option (List Char) :=
  match s with
  | [] => none
  | c2 :: rest => if c2 = c then some rest else none

/-- Expect the literal characters `tok` at the front of `s`. -/
def expectChars : List Char → List Char → Option (List Char)
  | [], s => some s
  | _ :: _, [] => none
  | t :: ts, c :: cs => if c = t then expectChars ts cs else none

/-- Parse the serde timestamp form produced by `renderDate`, consuming the
whole input. -/
def parseDate (s : List Char) : Option DateTime := do
  let (y, s) ← parseNatField s
  let s ← expectChar '-' s
  let (mo, s) ← parseNatField s
  let s ← expectChar '-' s
  let (dd, s) ← parseNatField s
  let s ← expectChar 'T' s
  let (hh, s) ← parseNatField s
  let s ← expectChar ':' s
  let (mi, s) ← parseNatField s
  let s ← expectChars [':', '0', '0', '+', '0', '0', ':', '0', '0'] s
  if s = [] then pure ⟨y, mo, dd, hh, mi⟩ else none

/-- The ICE record of `src/parser.rs` (struct `Ice`): description, message,
recipient list (`emails`), armed flag (`active`), optional scheduled release
timestamp (`send_date`). -/
structure Ice where
  description : String
  message : String
  emails : List String
  active : Bool
  send_date : Option DateTime
deriving DecidableEq, Repr

/-- `Ice::new`: a fresh record with no recipients, inactive, unscheduled. -/
def Ice.new (description : String) (message : String) : Ice :=
  { description := description, message := message, emails := [],
    active := false, send_date := none }

/-- `Ice::get_description`. -/
def Ice.get_description (i : Ice) : String := i.description

/-- `Ice::set_description`. -/
def Ice.set_description (i : Ice) (description : String) : Ice :=
  { i with description := description }

/-- `Ice::get_date`: the scheduled date in `"%F %R"` format, or the sentinel
`"Unknown"` when no date is set. -/
def Ice.get_date (i : Ice) : String :=
  match i.send_date with
  | some v => formatFR v
  | none => "Unknown"

/-- `Ice::set_date`. -/
def Ice.set_date (i : Ice) (new_date : Option DateTime) : Ice :=
  { i with send_date := new_date }

/-- `Ice::get_emails`. -/
def Ice.get_emails (i : Ice) : List String := i.emails

/-- `Ice::set_emails`: clears the stored list and copies the given one
(`clear` + `extend_from_slice`), i.e. wholesale replacement. -/
def Ice.set_emails (i : Ice) (emails : List String) : Ice :=
  { i with emails := emails }

/-- `Ice::get_message`. -/
def Ice.get_message (i : Ice) : String := i.message

/-- `Ice::set_message`. -/
def Ice.set_message (i : Ice) (message : String) : Ice :=
  { i with message := message }

/-- `Ice::get_status`. -/
def Ice.get_status (i : Ice) : Bool := i.active

/-- `Ice::set_status`. -/
def Ice.set_status (i : Ice) (status : Bool) : Ice :=
  { i with active := status }

/-- `Ice::get_status_line`:
`format!("{} ~> {} {}", description, Active/Inactive, date-segment)`, where
the date segment is `"(<date>)"` when active and the empty string otherwise.
The `console::style` coloring is a terminal concern and is modelled as plain
text. -/
def Ice.get_status_line (i : Ice) : String :=
  i.description ++ " ~> " ++ (if i.active then "Active" else "Inactive") ++ " "
    ++ (if i.active then "(" ++ i.get_date ++ ")" else "")

/-- The JSON fragment used by the persisted record collection: `serde_json`
values without numbers (the record format stores only strings, booleans,
null, arrays and objects). -/
inductive Json where
  | null : Json
  | bool (b : Bool) : Json
  | str (s : String) : Json
  | arr (elems : List Json) : Json
  | obj (members : List (String × Json)) : Json

/-- Lowercase hexadecimal digit, as used by serde_json control escapes. -/
def hexLower (n : Nat) : Char :=
  match n % 16 with
  | 0 => '0' | 1 => '1' | 2 => '2' | 3 => '3' | 4 => '4'
  | 5 => '5' | 6 => '6' | 7 => '7' | 8 => '8' | 9 => '9'
  | 10 => 'a' | 11 => 'b' | 12 => 'c' | 13 => 'd' | 14 => 'e' | _ => 'f'

/-- serde_json string escaping for one character: quote and backslash are
escaped, control characters below 0x20 get their short escape or a
`\u00XX` escape, everything else passes through. -/
def escapeChar (c : Char) : List Char :=
  if c = '"' then ['\\', '"']
  else if c = '\\' then ['\\', '\\']
  else if c = '\x08' then ['\\', 'b']
  else if c = '\x09' then ['\\', 't']
  else if c = '\x0a' then ['\\', 'n']
  else if c = '\x0c' then ['\\', 'f']
  else if c = '\x0d' then ['\\', 'r']
  else if c.toNat < 32 then
    '\\' :: 'u' :: '0' :: '0' :: hexLower (c.toNat / 16) :: [hexLower (c.toNat % 16)]
  else [c]

/-- serde_json escaping of a whole string body. -/
def escapeList : List Char → List Char
  | [] => []
  | c :: cs => escapeChar c ++ escapeList cs

mutual

/-- Compact JSON rendering, mirroring `serde_json::to_writer`. -/
def renderJson : Json → List Char
  | .null => "null".data
  | .bool true => "true".data
  | .bool false => "false".data
  | .str s => '"' :: (escapeList s.data ++ ['"'])
  | .arr xs => '[' :: (renderArr xs ++ [']'])
  | .obj ms => '\x7b' :: (renderObj ms ++ ['\x7d'])

/-- Comma-separated array elements. -/
def renderArr : List Json → List Char
  | [] => []
  | [x] => renderJson x
  | x :: y :: xs => renderJson x ++ (',' :: renderArr (y :: xs))

/-- Comma-separated object members. -/
def renderObj : List (String × Json) → List Char
  | [] => []
  | [m] => '"' :: (escapeList m.1.data ++ ('"' :: (':' :: renderJson m.2)))
  | m :: m2 :: ms =>
    ('"' :: (escapeList m.1.data ++ ('"' :: (':' :: renderJson m.2)))) ++ (',' :: renderObj (m2 :: ms))

end

/-- JSON insignificant whitespace. -/
def wsChar (c : Char) : Bool := c = ' ' || c = '\n' || c = '\r' || c = '\t'

/-- Skip insignificant whitespace. -/
def skipWs : List Char → List Char
  | [] => []
  | c :: cs => if wsChar c then skipWs cs else c :: cs

/-- Hexadecimal digit value. -/
def hexVal (c : Char) : Option Nat :=
  if 48 ≤ c.toNat && c.toNat ≤ 57 then some (c.toNat - 48)
  else if 97 ≤ c.toNat && c.toNat ≤ 102 then some (c.toNat - 87)
  else if 65 ≤ c.toNat && c.toNat ≤ 70 then some (c.toNat - 55)
  else none

/-- Single-character short escapes accepted after a backslash. -/
def unescapeChar (e : Char) : Option Char :=
  if e = '"' then some '"'
  else if e = '\\' then some '\\'
  else if e = '/' then some '/'
  else if e = 'b' then some '\x08'
  else if e = 'f' then some '\x0c'
  else if e = 'n' then some '\x0a'
  else if e = 'r' then some '\x0d'
  else if e = 't' then some '\x09'
  else none

/-- Parse a JSON string body up to and including the closing quote, returning
the unescaped characters and the remaining input.  Raw control characters are
rejected, as serde_json does; `\uXXXX` escapes outside the Unicode scalar
range are rejected (surrogate-pair recombination is outside the model, which
only needs the `\u00XX` control escapes the printer emits). -/
def parseStringBody : List Char → Option (List Char × List Char)
  | [] => none
  | c :: rest =>
    if c = '"' then some ([], rest)
    else if c = '\\' then
      match rest with
      | [] => none
      | e :: r =>
        if e = 'u' then
          match r with
          | h1 :: h2 :: h3 :: h4 :: r2 =>
            match hexVal h1, hexVal h2, hexVal h3, hexVal h4 with
            | some a, some b, some c3, some d =>
              let code := ((a * 16 + b) * 16 + c3) * 16 + d
              if h : code < 55296 ∨ (57343 < code ∧ code < 1114112) then
                match parseStringBody r2 with
                | some p => some (Char.ofNatAux code (by rcases h with h | h; exact Or.inl h; exact Or.inr (by omega)) :: p.1, p.2)
                | none => none
              else none
            | _, _, _, _ => none
          | _ => none
        else
          match unescapeChar e with
          | some uc =>
            match parseStringBody r with
            | some p => some (uc :: p.1, p.2)
            | none => none
          | none => none
    else if c.toNat < 32 then none
    else
      match parseStringBody rest with
      | some p => some (c :: p.1, p.2)
      | none => none
termination_by structural s => s

mutual

/-- Recursive-descent JSON value parser.  `fuel` bounds the recursion
(standing for serde_json's recursion limit); the top-level entry point
supplies more fuel than any input of that length can consume. -/
def parseValue : Nat → List Char → Option (Json × List Char)
  | 0, _ => none
  | Nat.succ fuel, s =>
    match skipWs s with
    | [] => none
    | c :: rest =>
      if c = 'n' then
        match expectChars "ull".data rest with
        | some r => some (Json.null, r)
        | none => none
      else if c = 't' then
        match expectChars "rue".data rest with
        | some r => some (Json.bool true, r)
        | none => none
      else if c = 'f' then
        match expectChars "alse".data rest with
        | some r => some (Json.bool false, r)
        | none => none
      else if c = '"' then
        match parseStringBody rest with
        | some p => some (Json.str (String.mk p.1), p.2)
        | none => none
      else if c = '[' then
        match skipWs rest with
        | [] => none
        | c2 :: r2 =>
          if c2 = ']' then some (Json.arr [], r2)
          else
            match parseElems fuel rest with
            | some p => some (Json.arr p.1, p.2)
            | none => none
      else if c = '\x7b' then
        match skipWs rest with
        | [] => none
        | c2 :: r2 =>
          if c2 = '\x7d' then some (Json.obj [], r2)
          else
            match parseMembers fuel rest with
            | some p => some (Json.obj p.1, p.2)
            | none => none
      else none

/-- One or more comma-separated array elements followed by `]`. -/
def parseElems : Nat → List Char → Option (List Json × List Char)
  | 0, _ => none
  | Nat.succ fuel, s =>
    match parseValue fuel s with
    | none => none
    | some (v, rest) =>
      match skipWs rest with
      | [] => none
      | c :: r2 =>
        if c = ',' then
          match parseElems fuel r2 with
          | some p => some (v :: p.1, p.2)
          | none => none
        else if c = ']' then some ([v], r2)
        else none

/-- One or more comma-separated object members followed by the closing
brace. -/
def parseMembers : Nat → List Char → Option (List (String × Json) × List Char)
  | 0, _ => none
  | Nat.succ fuel, s =>
    match skipWs s with
    | [] => none
    | c :: rest =>
      if c = '"' then
        match parseStringBody rest with
        | none => none
        | some (k, rest2) =>
          match skipWs rest2 with
          | [] => none
          | c2 :: rest3 =>
            if c2 = ':' then
              match parseValue fuel rest3 with
              | none => none
              | some (v, rest4) =>
                match skipWs rest4 with
                | [] => none
                | c3 :: rest5 =>
                  if c3 = ',' then
                    match parseMembers fuel rest5 with
                    | some p => some ((String.mk k, v) :: p.1, p.2)
                    | none => none
                  else if c3 = '\x7d' then some ([(String.mk k, v)], rest5)
                  else none
            else none
      else none

end

/-- Parse a whole JSON document: one value, with only whitespace around it. -/
def parseJson (content : String) : Option Json :=
  match parseValue (content.data.length + 1) content.data with
  | some (j, rest) => if skipWs rest = [] then some j else none
  | none => none

/-- Association-list field lookup, modelling how serde matches struct field
names in a JSON object (first occurrence wins, unknown keys are skipped). -/
def jsonLookup (key : String) : List (String × Json) → Option Json
  | [] => none
  | m :: ms => if m.1 = key then some m.2 else jsonLookup key ms

/-- Decode a JSON string. -/
def decodeString : Json → Option String
  | .str s => some s
  | _ => none

/-- Decode a JSON boolean. -/
def decodeBoolJ : Json → Option Bool
  | .bool b => some b
  | _ => none

/-- Decode the nullable `send_date` field. -/
def decodeDateField : Json → Option (Option DateTime)
  | .null => some none
  | .str s =>
    match parseDate s.data with
    | some d => some (some d)
    | none => none
  | _ => none

/-- Decode every element of a JSON array (serde sequence visitor). -/
def decodeList {α : Type} (f : Json → Option α) : List Json → Option (List α)
  | [] => some []
  | j :: js =>
    match f j, decodeList f js with
    | some a, some as => some (a :: as)
    | _, _ => none

/-- serde deserialization of one `Ice` record: an object carrying the five
struct fields. -/
def iceFromJson (j : Json) : Option Ice :=
  match j with
  | .obj ms =>
    match jsonLookup "description" ms, jsonLookup "message" ms, jsonLookup "emails" ms,
      jsonLookup "active" ms, jsonLookup "send_date" ms with
    | some dj, some mj, some ej, some aj, some sj =>
      match decodeString dj, decodeString mj,
        (match ej with | .arr es => decodeList decodeString es | _ => none),
        decodeBoolJ aj, decodeDateField sj with
      | some d, some m, some es, some a, some sd =>
        some { description := d, message := m, emails := es, active := a, send_date := sd }
      | _, _, _, _, _ => none
    | _, _, _, _, _ => none
  | _ => none

/-- serde serialization of one `Ice` record, fields in declaration order. -/
def iceToJson (i : Ice) : Json :=
  Json.obj [("description", Json.str i.description), ("message", Json.str i.message),
    ("emails", Json.arr (i.emails.map Json.str)), ("active", Json.bool i.active),
    ("send_date", match i.send_date with
      | some d => Json.str (String.mk (renderDate d))
      | none => Json.null)]

/-- serde serialization of the whole collection (`&Vec<Ice>`). -/
def icesToJson (ices : List Ice) : Json := Json.arr (ices.map iceToJson)

/-- serde deserialization of the whole collection (`Vec<Ice>`). -/
def icesFromJson (j : Json) : Option (List Ice) :=
  match j with
  | .arr xs => decodeList iceFromJson xs
  | _ => none

/-- `write_ices`: serialize the full collection to the backing file content
(`serde_json::to_writer(File::create(path), &ices)`).  The returned string is
what replaces the file. -/
def write_ices (ices : List Ice) : String := String.mk (renderJson (icesToJson ices))

/-- `serde_json::from_reader::<Vec<Ice>>` on the file content. -/
def parseIces (content : String) : Option (List Ice) :=
  match parseJson content with
  | some j => icesFromJson j
  | none => none

/-- Outcome of `get_ices`: the Rust `Result<Vec<Ice>, &'static str>` plus a
`panicked` case modelling `unwrap()` aborting the process. -/
inductive LoadResult (α : Type) where
  | ok (val : α) : LoadResult α
  | err (msg : String) : LoadResult α
  | panicked : LoadResult α
deriving DecidableEq, Repr

/-- `get_ices`: if the store path does not exist, return the typed error
`"JSON file does not exist"`; otherwise parse the content, panicking (via
`serde_json::from_reader(file).unwrap()`) when it does not parse as a
record collection. -/
def get_ices (fs : Option String) : LoadResult (List Ice) :=
  match fs with
  | none => LoadResult.err "JSON file does not exist"
  | some content =>
    match parseIces content with
    | some ices => LoadResult.ok ices
    | none => LoadResult.panicked

/-- The date-validation step inside `activate_ice`'s prompt loop.  The
candidate is the parse result of one input string (`none` models a string
rejected by `Local.datetime_from_str(.., "%F %R")`, i.e. "Invalid date
format"); a parsed date is accepted only if strictly after `today`
("Date cannot be in the past"). -/
def validateDate (today : DateTime) (candidate : Option DateTime) : Option DateTime :=
  match candidate with
  | some v => if DateTime.ltb today v then some v else none
  | none => none

/-- The `while date.is_none()` prompt loop of `activate_ice`: try each
successive user input against the same `today`; stop at the first valid one.
An exhausted input list models a session still stuck at the prompt (the loop
only exits with a valid date). -/
def dateLoop (today : DateTime) : List (Option DateTime) → Option DateTime
  | [] => none
  | candidate :: rest =>
    match validateDate today candidate with
    | some v => some v
    | none => dateLoop today rest

/-- The record mutation performed by `activate_ice` once the loop returns:
`edited.set_date(date); edited.set_status(true)`.  If the loop never
produced a date, the record is untouched. -/
def activateIceRecord (today : DateTime) (inputs : List (Option DateTime)) (i : Ice) : Ice :=
  match dateLoop today inputs with
  | some t => (i.set_date (some t)).set_status true
  | none => i

/-- The record mutation performed by `deactivate_ice`: a record that is not
active is left alone ("That ICE mail is not active"), an unconfirmed
deactivation is cancelled, otherwise `set_date(None); set_status(false)`. -/
def deactivateIceRecord (confirm : Bool) (i : Ice) : Ice :=
  if i.get_status = false then i
  else if confirm = false then i
  else (i.set_date none).set_status false

/-- Outcome of the `create_ice` command. -/
inductive CreateResult where
  | aborted : CreateResult
  | created : CreateResult
  | panicked : CreateResult
deriving DecidableEq, Repr

/-- `create_ice`: ask for a description and message (message `none` models
the editor returning nothing: "You need to specify a message. Aborting...");
load the collection treating any load error as the empty collection
("File may not exist yet, will be created later"); push the new record and
write the whole collection back. -/
def create_ice (fs : Option String) (description : String) (message : Option String) :
    Option String × CreateResult :=
  match message with
  | none => (fs, CreateResult.aborted)
  | some msg =>
    let new_ice := Ice.new description msg
    match get_ices fs with
    | LoadResult.panicked => (fs, CreateResult.panicked)
    | LoadResult.ok v => (some (write_ices (v ++ [new_ice])), CreateResult.created)
    | LoadResult.err _ => (some (write_ices ([] ++ [new_ice])), CreateResult.created)

/-- Outcome of the `activate_ice` command. -/
inductive ActivateResult where
  | loadError (msg : String) : ActivateResult
  | panicked : ActivateResult
  | noIces : ActivateResult
  | prompting : ActivateResult
  | activated : ActivateResult
deriving DecidableEq, Repr

/-- `activate_ice`: load the collection, bail out on a load error or an empty
collection, clone the selected record, sample `today = Local::now()` once
(before the prompt loop), run the date prompt loop against that fixed
`today`, then arm the record and write the whole collection back.
`clock` is the wall-clock source (successive readings); the source samples it
exactly once, at index 0.  `selected` out of range models the panicking
`ices[selected]` indexing. -/
def activate_ice (fs : Option String) (selected : Nat) (clock : Nat → DateTime)
    (inputs : List (Option DateTime)) : Option String × ActivateResult :=
  match get_ices fs with
  | LoadResult.err e => (fs, ActivateResult.loadError e)
  | LoadResult.panicked => (fs, ActivateResult.panicked)
  | LoadResult.ok ices =>
    if ices.isEmpty then (fs, ActivateResult.noIces)
    else
      match ices.get? selected with
      | none => (fs, ActivateResult.panicked)
      | some ice =>
        let edited := ice
        let today := clock 0
        match dateLoop today inputs with
        | none => (fs, ActivateResult.prompting)
        | some t =>
          let edited := (edited.set_date (some t)).set_status true
          (some (write_ices (ices.set selected edited)), ActivateResult.activated)

/-- Outcome of the `deactivate_ice` command. -/
inductive DeactivateResult where
  | loadError (msg : String) : DeactivateResult
  | panicked : DeactivateResult
  | noIces : DeactivateResult
  | notActive : DeactivateResult
  | cancelled : DeactivateResult
  | deactivated : DeactivateResult
deriving DecidableEq, Repr

/-- `deactivate_ice`: load the collection, bail out on a load error or empty
collection, clone the selected record; a record that is not active is
reported ("That ICE mail is not active") and nothing is mutated; an
unconfirmed deactivation is cancelled; otherwise clear the date, clear the
flag and write the whole collection back. -/
def deactivate_ice (fs : Option String) (selected : Nat) (confirm : Bool) :
    Option String × DeactivateResult :=
  match get_ices fs with
  | LoadResult.err e => (fs, DeactivateResult.loadError e)
  | LoadResult.panicked => (fs, DeactivateResult.panicked)
  | LoadResult.ok ices =>
    if ices.isEmpty then (fs, DeactivateResult.noIces)
    else
      match ices.get? selected with
      | none => (fs, DeactivateResult.panicked)
      | some ice =>
        if ice.get_status = false then (fs, DeactivateResult.notActive)
        else if confirm = false then (fs, DeactivateResult.cancelled)
        else
          let edited := (ice.set_date none).set_status false
          (some (write_ices (ices.set selected edited)), DeactivateResult.deactivated)

/-- One complete record-level lifecycle operation: the edits performed by
`edit_ice` (description, message, recipients) and the arm/disarm record
mutations of `activate_ice` / `deactivate_ice`. -/
inductive LifecycleOp where
  | editDescription (d : String) : LifecycleOp
  | editMessage (m : String) : LifecycleOp
  | editRecipients (es : List String) : LifecycleOp
  | arm (today : DateTime) (inputs : List (Option DateTime)) : LifecycleOp
  | disarm (confirm : Bool) : LifecycleOp

/-- Apply one lifecycle operation to a record. -/
def applyOp (i : Ice) : LifecycleOp → Ice
  | LifecycleOp.editDescription d => i.set_description d
  | LifecycleOp.editMessage m => i.set_message m
  | LifecycleOp.editRecipients es => i.set_emails es
  | LifecycleOp.arm today inputs => activateIceRecord today inputs i
  | LifecycleOp.disarm confirm => deactivateIceRecord confirm i

/-- The record invariant of the spec: armed exactly when scheduled. -/
def iceInv (i : Ice) : Prop := i.active = true ↔ i.send_date.isSome = true

/-- One `save(load(...))` composition on file content. -/
def resave (content : String) : Option String :=
  match parseIces content with
  | some l => some (write_ices l)
  | none => none

/-- `n`-fold composition of `save(load(...))`. -/
def resaveN : Nat → String → Option String
  | 0, content => some content
  | Nat.succ n, content =>
    match resave content with
    | some c2 => resaveN n c2
    | none => none

theorem digitChar_toNat_bounded : ∀ r < 10, (digitChar r).toNat = 48 + r := by decide

theorem digitChar_toNat {r : Nat} (h : r < 10) : (digitChar r).toNat = 48 + r :=
  digitChar_toNat_bounded r h

theorem digitsToNat_nil (acc : Nat) : digitsToNat acc [] = acc := rfl

theorem digitsToNat_cons (acc : Nat) (c : Char) (cs : List Char) :
    digitsToNat acc (c :: cs) = digitsToNat (acc * 10 + (c.toNat - 48)) cs := rfl

theorem natDigitsAux_succ (fuel n : Nat) :
    natDigitsAux (Nat.succ fuel) n
      = if n < 10 then [digitChar n] else natDigitsAux fuel (n / 10) ++ [digitChar (n % 10)] :=
  rfl

theorem natDigitsAux_fuel :
    ∀ f1 f2 n : Nat, n < f1 → n < f2 → natDigitsAux f1 n = natDigitsAux f2 n := by
  intro f1
  induction f1 with
  | zero => intro f2 n h1 h2; exact absurd h1 (by omega)
  | succ f ih =>
    intro f2 n h1 h2
    cases f2 with
    | zero => exact absurd h2 (by omega)
    | succ g =>
      by_cases hn : n < 10
      · rw [natDigitsAux_succ, natDigitsAux_succ, if_pos hn, if_pos hn]
      · rw [natDigitsAux_succ, natDigitsAux_succ, if_neg hn, if_neg hn,
          ih g (n / 10) (by omega) (by omega)]

theorem natDigits_eq_small {n : Nat} (h : n < 10) : natDigits n = [digitChar n] := by
  unfold natDigits
  rw [show n + 1 = Nat.succ n from rfl, natDigitsAux_succ, if_pos h]

theorem natDigits_eq_large {n : Nat} (h : ¬ n < 10) :
    natDigits n = natDigits (n / 10) ++ [digitChar (n % 10)] := by
  unfold natDigits
  rw [show n + 1 = Nat.succ n from rfl, natDigitsAux_succ, if_neg h,
    natDigitsAux_fuel n (n / 10 + 1) (n / 10) (by omega) (by omega)]

/-- Division by ten shrinks any number with two or more digits. -/
theorem div10_lt {n : Nat} (h : ¬ n < 10) : n / 10 < n :=
  Nat.div_lt_self (by omega) (by omega)

theorem isDigitC_digitChar_bounded : ∀ r < 10, isDigitC (digitChar r) = true := by decide

theorem isDigitC_digitChar (n : Nat) : isDigitC (digitChar n) = true := by
  have h1 : digitChar n = digitChar (n % 10) := by
    unfold digitChar
    have : n % 10 % 10 = n % 10 := by omega
    rw [this]
  rw [h1]
  exact isDigitC_digitChar_bounded (n % 10) (by omega)

theorem natDigits_ne_nil (n : Nat) : natDigits n ≠ [] := by
  by_cases h : n < 10
  · rw [natDigits_eq_small h]
    simp
  · rw [natDigits_eq_large h]
    simp

theorem natDigits_all_digits (n : Nat) : ∀ c ∈ natDigits n, isDigitC c = true := by
  induction n using Nat.strong_induction_on with
  | _ n ih =>
    by_cases h : n < 10
    · rw [natDigits_eq_small h]
      intro c hc
      simp only [List.mem_singleton] at hc
      subst hc
      exact isDigitC_digitChar n
    · rw [natDigits_eq_large h]
      intro c hc
      rw [List.mem_append] at hc
      rcases hc with hc | hc
      · exact ih (n / 10) (div10_lt h) c hc
      · simp only [List.mem_singleton] at hc
        subst hc
        exact isDigitC_digitChar (n % 10)

theorem digitsToNat_append (acc : Nat) (xs ys : List Char) :
    digitsToNat acc (xs ++ ys) = digitsToNat (digitsToNat acc xs) ys := by
  induction xs generalizing acc with
  | nil => rfl
  | cons c cs ih => exact ih (acc * 10 + (c.toNat - 48))

theorem digitsToNat_natDigits (n : Nat) :
    ∀ acc, digitsToNat acc (natDigits n) = acc * 10 ^ (natDigits n).length + n := by
  induction n using Nat.strong_induction_on with
  | _ n ih =>
    intro acc
    by_cases h : n < 10
    · rw [natDigits_eq_small h, digitsToNat_cons, digitsToNat_nil,
        digitChar_toNat h]
      simp only [List.length_singleton, pow_one]
      omega
    · rw [natDigits_eq_large h, digitsToNat_append]
      have hlt : n / 10 < n := div10_lt h
      rw [ih (n / 10) hlt acc, digitsToNat_cons, digitsToNat_nil,
        digitChar_toNat (by omega : n % 10 < 10)]
      have hmod : 48 + n % 10 - 48 = n % 10 := by omega
      rw [hmod]
      simp only [List.length_append, List.length_singleton]
      calc (acc * 10 ^ (natDigits (n / 10)).length + n / 10) * 10 + n % 10
          = acc * 10 ^ (natDigits (n / 10)).length * 10 + (10 * (n / 10) + n % 10) := by ring
        _ = acc * 10 ^ ((natDigits (n / 10)).length + 1) + n := by
            rw [Nat.div_add_mod]; ring

theorem digitsToNat_zeros :
    ∀ cs : List Char, (∀ c ∈ cs, c = '0') → digitsToNat 0 cs = 0 := by
  intro cs
  induction cs with
  | nil => intro _; rfl
  | cons c cs ih =>
    intro hc
    have h0 : c = '0' := hc c (List.mem_cons_self c cs)
    subst h0
    rw [digitsToNat_cons]
    simpa using ih fun c2 hmem => hc c2 (List.mem_cons_of_mem _ hmem)

theorem digitsToNat_natPad (k n : Nat) : digitsToNat 0 (natPad k n) = n := by
  unfold natPad
  rw [digitsToNat_append,
    digitsToNat_zeros (List.replicate (k - (natDigits n).length) '0')
      (fun c hc => List.eq_of_mem_replicate hc)]
  have := digitsToNat_natDigits n 0
  simpa using this

theorem natPad_ne_nil (k n : Nat) : natPad k n ≠ [] := by
  unfold natPad
  intro h
  rcases List.append_eq_nil.mp h with ⟨-, h2⟩
  exact natDigits_ne_nil n h2

theorem natPad_all_digits (k n : Nat) : ∀ c ∈ natPad k n, isDigitC c = true := by
  intro c hc
  unfold natPad at hc
  rw [List.mem_append] at hc
  rcases hc with hc | hc
  · have := List.eq_of_mem_replicate hc
    subst this
    decide
  · exact natDigits_all_digits n c hc

theorem takeDigits_append {ds rest : List Char}
    (hds : ∀ c ∈ ds, isDigitC c = true) (hrest : headNonDigit rest) :
    takeDigits (ds ++ rest) = ds ∧ dropDigits (ds ++ rest) = rest := by
  induction ds with
  | nil =>
    simp only [List.nil_append]
    cases rest with
    | nil => exact ⟨rfl, rfl⟩
    | cons c cs =>
      simp only [headNonDigit] at hrest
      constructor
      · simp [takeDigits, hrest]
      · simp [dropDigits, hrest]
  | cons d ds ih =>
    have hd : isDigitC d = true := hds d (List.mem_cons_self d ds)
    have hds2 : ∀ c ∈ ds, isDigitC c = true := fun c hc => hds c (List.mem_cons_of_mem d hc)
    rcases ih hds2 with ⟨h1, h2⟩
    constructor
    · simp [takeDigits, hd, h1]
    · simp [dropDigits, hd, h2]

theorem parseNatField_pad (k n : Nat) (rest : List Char) (hrest : headNonDigit rest) :
    parseNatField (natPad k n ++ rest) = some (n, rest) := by
  rcases takeDigits_append (natPad_all_digits k n) hrest with ⟨h1, h2⟩
  unfold parseNatField
  rw [h1, h2, if_neg (natPad_ne_nil k n), digitsToNat_natPad]

theorem expectChar_self (c : Char) (rest : List Char) :
    expectChar c (c :: rest) = some rest := by
  simp [expectChar]

theorem expectChars_self (ts : List Char) (rest : List Char) :
    expectChars ts (ts ++ rest) = some rest := by
  induction ts with
  | nil => rfl
  | cons t ts ih => simp [expectChars, ih]

theorem parseDate_renderDate (d : DateTime) : parseDate (renderDate d) = some d := by
  obtain ⟨y, mo, dd, hh, mi⟩ := d
  unfold parseDate renderDate
  dsimp only
  rw [parseNatField_pad 4 y]
  · dsimp only [Option.bind_eq_bind, Option.some_bind]
    rw [expectChar_self]
    dsimp only [Option.some_bind]
    rw [parseNatField_pad 2 mo]
    · dsimp only [Option.some_bind]
      rw [expectChar_self]
      dsimp only [Option.some_bind]
      rw [parseNatField_pad 2 dd]
      · dsimp only [Option.some_bind]
        rw [expectChar_self]
        dsimp only [Option.some_bind]
        rw [parseNatField_pad 2 hh]
        · dsimp only [Option.some_bind]
          rw [expectChar_self]
          dsimp only [Option.some_bind]
          rw [parseNatField_pad 2 mi]
          · dsimp only [Option.some_bind]
            rw [expectChars_self]
            rfl
          · exact rfl
        · exact rfl
      · exact rfl
    · exact rfl
  · exact rfl

theorem hexVal_hexLower : ∀ m < 16, hexVal (hexLower m) = some m := by decide

theorem ofNatAux_eq (n : Nat) (hn : n.isValidChar) : Char.ofNatAux n hn = Char.ofNat n := by
  unfold Char.ofNat
  rw [dif_pos hn]

theorem parseStringBody_quote (rest : List Char) :
    parseStringBody ('"' :: rest) = some ([], rest) := by
  rw [parseStringBody.eq_def]
  simp

theorem parseStringBody_esc_quote (r : List Char) :
    parseStringBody ('\\' :: '"' :: r)
      = match parseStringBody r with
        | some p => some ('"' :: p.1, p.2)
        | none => none := by
  rw [parseStringBody.eq_def]
  simp [unescapeChar]

theorem parseStringBody_unicode {c : Char} (r : List Char) (h : c.toNat < 32) :
    parseStringBody ('\\' :: 'u' :: '0' :: '0' :: hexLower (c.toNat / 16) :: hexLower (c.toNat % 16) :: r)
      = match parseStringBody r with
        | some p => some (c :: p.1, p.2)
        | none => none := by
  have e0 : hexVal '0' = some 0 := by decide
  have e1 : hexVal (hexLower (c.toNat / 16)) = some (c.toNat / 16) :=
    hexVal_hexLower _ (by omega)
  have e2 : hexVal (hexLower (c.toNat % 16)) = some (c.toNat % 16) :=
    hexVal_hexLower _ (by omega)
  rw [parseStringBody.eq_def]
  simp [e0, e1, e2]
  rw [dif_pos (Or.inl (by omega : c.toNat / 16 * 16 + c.toNat % 16 < 55296))]
  rw [ofNatAux_eq]
  rw [show c.toNat / 16 * 16 + c.toNat % 16 = c.toNat from by omega]
  rw [Char.ofNat_toNat]

theorem parseStringBody_plain {c : Char} (r : List Char) (h1 : ¬ c = '"') (h2 : ¬ c = '\\')
    (h3 : ¬ c.toNat < 32) :
    parseStringBody (c :: r)
      = match parseStringBody r with
        | some p => some (c :: p.1, p.2)
        | none => none := by
  rw [parseStringBody.eq_def]
  simp [h1, h2, h3]

theorem parseStringBody_esc_backslash (r : List Char) :
    parseStringBody ('\\' :: '\\' :: r)
      = match parseStringBody r with
        | some p => some ('\\' :: p.1, p.2)
        | none => none := by
  rw [parseStringBody.eq_def]
  simp [unescapeChar]

theorem parseStringBody_esc_b (r : List Char) :
    parseStringBody ('\\' :: 'b' :: r)
      = match parseStringBody r with
        | some p => some ('\x08' :: p.1, p.2)
        | none => none := by
  rw [parseStringBody.eq_def]
  simp [unescapeChar]

theorem parseStringBody_esc_t (r : List Char) :
    parseStringBody ('\\' :: 't' :: r)
      = match parseStringBody r with
        | some p => some ('\x09' :: p.1, p.2)
        | none => none := by
  rw [parseStringBody.eq_def]
  simp [unescapeChar]

theorem parseStringBody_esc_n (r : List Char) :
    parseStringBody ('\\' :: 'n' :: r)
      = match parseStringBody r with
        | some p => some ('\x0a' :: p.1, p.2)
        | none => none := by
  rw [parseStringBody.eq_def]
  simp [unescapeChar]

theorem parseStringBody_esc_f (r : List Char) :
    parseStringBody ('\\' :: 'f' :: r)
      = match parseStringBody r with
        | some p => some ('\x0c' :: p.1, p.2)
        | none => none := by
  rw [parseStringBody.eq_def]
  simp [unescapeChar]

theorem parseStringBody_esc_r (r : List Char) :
    parseStringBody ('\\' :: 'r' :: r)
      = match parseStringBody r with
        | some p => some ('\x0d' :: p.1, p.2)
        | none => none := by
  rw [parseStringBody.eq_def]
  simp [unescapeChar]

theorem parseStringBody_escapeChar (c : Char) (X : List Char) :
    parseStringBody (escapeChar c ++ X)
      = match parseStringBody X with
        | some p => some (c :: p.1, p.2)
        | none => none := by
  by_cases h1 : c = '"'
  · subst h1
    exact parseStringBody_esc_quote X
  by_cases h2 : c = '\\'
  · subst h2
    have he : escapeChar '\\' = ['\\', '\\'] := by decide
    rw [he]
    exact parseStringBody_esc_backslash X
  by_cases h3 : c = '\x08'
  · subst h3
    have he : escapeChar '\x08' = ['\\', 'b'] := by decide
    rw [he]
    exact parseStringBody_esc_b X
  by_cases h4 : c = '\x09'
  · subst h4
    have he : escapeChar '\x09' = ['\\', 't'] := by decide
    rw [he]
    exact parseStringBody_esc_t X
  by_cases h5 : c = '\x0a'
  · subst h5
    have he : escapeChar '\x0a' = ['\\', 'n'] := by decide
    rw [he]
    exact parseStringBody_esc_n X
  by_cases h6 : c = '\x0c'
  · subst h6
    have he : escapeChar '\x0c' = ['\\', 'f'] := by decide
    rw [he]
    exact parseStringBody_esc_f X
  by_cases h7 : c = '\x0d'
  · subst h7
    have he : escapeChar '\x0d' = ['\\', 'r'] := by decide
    rw [he]
    exact parseStringBody_esc_r X
  by_cases h8 : c.toNat < 32
  · have he : escapeChar c
        = ['\\', 'u', '0', '0', hexLower (c.toNat / 16), hexLower (c.toNat % 16)] := by
      unfold escapeChar
      rw [if_neg h1, if_neg h2, if_neg h3, if_neg h4, if_neg h5, if_neg h6, if_neg h7, if_pos h8]
    rw [he]
    exact parseStringBody_unicode X h8
  · have he : escapeChar c = [c] := by
      unfold escapeChar
      rw [if_neg h1, if_neg h2, if_neg h3, if_neg h4, if_neg h5, if_neg h6, if_neg h7, if_neg h8]
    rw [he]
    exact parseStringBody_plain X h1 h2 h8

theorem parseStringBody_escapeList (cs : List Char) (rest : List Char) :
    parseStringBody (escapeList cs ++ ('"' :: rest)) = some (cs, rest) := by
  induction cs with
  | nil => exact parseStringBody_quote rest
  | cons c cs ih =>
    show parseStringBody ((escapeChar c ++ escapeList cs) ++ ('"' :: rest)) = _
    rw [List.append_assoc, parseStringBody_escapeChar, ih]

theorem renderJson_null : renderJson Json.null = 'n' :: "ull".data := by
  rw [renderJson.eq_def]

theorem renderJson_true : renderJson (Json.bool true) = 't' :: "rue".data := by
  rw [renderJson.eq_def]

theorem renderJson_false : renderJson (Json.bool false) = 'f' :: "alse".data := by
  rw [renderJson.eq_def]

theorem renderJson_str (s : String) :
    renderJson (Json.str s) = '"' :: (escapeList s.data ++ ['"']) := by
  rw [renderJson.eq_def]

theorem renderJson_arr (xs : List Json) :
    renderJson (Json.arr xs) = '[' :: (renderArr xs ++ [']']) := by
  rw [renderJson.eq_def]

theorem renderJson_obj (ms : List (String × Json)) :
    renderJson (Json.obj ms) = '\x7b' :: (renderObj ms ++ ['\x7d']) := by
  rw [renderJson.eq_def]

theorem renderArr_nil : renderArr [] = [] := by
  rw [renderArr.eq_def]

theorem renderArr_single (x : Json) : renderArr [x] = renderJson x := by
  rw [renderArr.eq_def]

theorem renderArr_cons (x y : Json) (xs : List Json) :
    renderArr (x :: y :: xs) = renderJson x ++ (',' :: renderArr (y :: xs)) := by
  rw [renderArr.eq_def]

theorem renderObj_single (m : String × Json) :
    renderObj [m] = '"' :: (escapeList m.1.data ++ ('"' :: (':' :: renderJson m.2))) := by
  rw [renderObj.eq_def]

theorem renderObj_cons (m m2 : String × Json) (ms : List (String × Json)) :
    renderObj (m :: m2 :: ms)
      = ('"' :: (escapeList m.1.data ++ ('"' :: (':' :: renderJson m.2))))
        ++ (',' :: renderObj (m2 :: ms)) := by
  rw [renderObj.eq_def]

theorem skipWs_cons_notWs {c : Char} (t : List Char) (h : wsChar c = false) :
    skipWs (c :: t) = c :: t := by
  rw [skipWs.eq_def]
  simp [h]

theorem renderJson_head_notWs (j : Json) :
    ∃ c t, renderJson j = c :: t ∧ (wsChar c = false ∧ ¬ c = ']' ∧ ¬ c = '\x7d') := by
  cases j with
  | null => exact ⟨'n', _, renderJson_null, by decide⟩
  | bool b =>
    cases b
    case false => exact ⟨'f', _, renderJson_false, by decide⟩
    case true => exact ⟨'t', _, renderJson_true, by decide⟩
  | str s => exact ⟨'"', _, renderJson_str s, by decide⟩
  | arr xs => exact ⟨'[', _, renderJson_arr xs, by decide⟩
  | obj ms => exact ⟨'\x7b', _, renderJson_obj ms, by decide⟩

theorem renderJson_length_pos (j : Json) : 1 ≤ (renderJson j).length := by
  obtain ⟨c, t, ht, -⟩ := renderJson_head_notWs j
  rw [ht]
  simp

theorem renderArr_head (x : Json) (xs : List Json) :
    ∃ c t, renderArr (x :: xs) = c :: t ∧ (wsChar c = false ∧ ¬ c = ']' ∧ ¬ c = '\x7d') := by
  obtain ⟨c, t, h, hp⟩ := renderJson_head_notWs x
  cases xs with
  | nil => exact ⟨c, t, by rw [renderArr_single, h], hp⟩
  | cons y ys =>
    exact ⟨c, t ++ (',' :: renderArr (y :: ys)),
      by rw [renderArr_cons, h, List.cons_append], hp⟩

theorem parse_render_inversion : ∀ fuel : Nat,
    (∀ (j : Json) (rest : List Char), (renderJson j).length ≤ fuel →
      parseValue fuel (renderJson j ++ rest) = some (j, rest)) ∧
    (∀ (xs : List Json) (rest : List Char), xs ≠ [] → (renderArr xs).length < fuel →
      parseElems fuel (renderArr xs ++ (']' :: rest)) = some (xs, rest)) ∧
    (∀ (ms : List (String × Json)) (rest : List Char), ms ≠ [] → (renderObj ms).length < fuel →
      parseMembers fuel (renderObj ms ++ ('\x7d' :: rest)) = some (ms, rest)) := by
  intro fuel
  induction fuel with
  | zero =>
    refine ⟨?_, ?_, ?_⟩
    · intro j rest hlen
      exact absurd hlen (by have := renderJson_length_pos j; omega)
    · intro xs rest hne hlen
      exact absurd hlen (by omega)
    · intro ms rest hne hlen
      exact absurd hlen (by omega)
  | succ f ih =>
    obtain ⟨IH1, IH2, IH3⟩ := ih
    refine ⟨?_, ?_, ?_⟩
    · intro j rest hlen
      cases j with
      | null =>
        rw [renderJson_null, List.cons_append]
        rw [parseValue.eq_def]
        dsimp only
        rw [skipWs_cons_notWs _ (by decide)]
        dsimp only
        rw [if_pos rfl]
        rw [expectChars_self]
      | bool b =>
        cases b with
        | true =>
          rw [renderJson_true, List.cons_append]
          rw [parseValue.eq_def]
          dsimp only
          rw [skipWs_cons_notWs _ (by decide)]
          dsimp only
          rw [if_neg (by decide), if_pos rfl]
          rw [expectChars_self]
        | false =>
          rw [renderJson_false, List.cons_append]
          rw [parseValue.eq_def]
          dsimp only
          rw [skipWs_cons_notWs _ (by decide)]
          dsimp only
          rw [if_neg (by decide), if_neg (by decide), if_pos rfl]
          rw [expectChars_self]
      | str s =>
        rw [renderJson_str]
        simp only [List.cons_append, List.append_assoc, List.singleton_append, List.nil_append]
        rw [parseValue.eq_def]
        dsimp only
        rw [skipWs_cons_notWs _ (by decide)]
        dsimp only
        rw [if_neg (by decide), if_neg (by decide), if_neg (by decide), if_pos rfl]
        rw [parseStringBody_escapeList]
      | arr xs =>
        cases xs with
        | nil =>
          rw [renderJson_arr, renderArr_nil]
          simp only [List.nil_append, List.cons_append, List.singleton_append]
          rw [parseValue.eq_def]
          dsimp only
          rw [skipWs_cons_notWs _ (by decide)]
          dsimp only
          rw [if_neg (by decide), if_neg (by decide), if_neg (by decide), if_neg (by decide),
            if_pos rfl]
          rw [skipWs_cons_notWs _ (by decide)]
          dsimp only
          rw [if_pos rfl]
        | cons x xs =>
          have hlen2 : (renderArr (x :: xs)).length < f := by
            rw [renderJson_arr] at hlen
            simp only [List.length_cons, List.length_append, List.length_singleton] at hlen
            omega
          obtain ⟨c, t, hct, hws, hbr, hbr2⟩ := renderArr_head x xs
          have harr : renderArr (x :: xs) ++ (']' :: rest) = c :: (t ++ (']' :: rest)) := by
            rw [hct, List.cons_append]
          have hElems := IH2 (x :: xs) rest (List.cons_ne_nil x xs) hlen2
          rw [renderJson_arr]
          simp only [List.cons_append, List.append_assoc, List.singleton_append, List.nil_append]
          rw [parseValue.eq_def]
          dsimp only
          rw [skipWs_cons_notWs _ (by decide)]
          dsimp only
          rw [if_neg (by decide), if_neg (by decide), if_neg (by decide), if_neg (by decide),
            if_pos rfl]
          rw [harr]
          rw [skipWs_cons_notWs _ hws]
          dsimp only
          rw [if_neg hbr]
          rw [← harr, hElems]
      | obj ms =>
        cases ms with
        | nil =>
          rw [renderJson_obj, renderObj.eq_def]
          simp only [List.nil_append, List.cons_append, List.singleton_append]
          rw [parseValue.eq_def]
          dsimp only
          rw [skipWs_cons_notWs _ (by decide)]
          dsimp only
          rw [if_neg (by decide), if_neg (by decide), if_neg (by decide), if_neg (by decide),
            if_neg (by decide), if_pos rfl]
          rw [skipWs_cons_notWs _ (by decide)]
          dsimp only
          rw [if_pos rfl]
        | cons m ms =>
          have hlen2 : (renderObj (m :: ms)).length < f := by
            rw [renderJson_obj] at hlen
            simp only [List.length_cons, List.length_append, List.length_singleton] at hlen
            omega
          have hobjHead : ∃ t2, renderObj (m :: ms) = '"' :: t2 := by
            cases ms with
            | nil => exact ⟨_, renderObj_single m⟩
            | cons m2 ms2 => exact ⟨_, by rw [renderObj_cons, List.cons_append]⟩
          obtain ⟨t2, hct⟩ := hobjHead
          have hobj : renderObj (m :: ms) ++ ('\x7d' :: rest) = '"' :: (t2 ++ ('\x7d' :: rest)) := by
            rw [hct, List.cons_append]
          have hMembers := IH3 (m :: ms) rest (List.cons_ne_nil m ms) hlen2
          rw [renderJson_obj]
          simp only [List.cons_append, List.append_assoc, List.singleton_append, List.nil_append]
          rw [parseValue.eq_def]
          dsimp only
          rw [skipWs_cons_notWs _ (by decide)]
          dsimp only
          rw [if_neg (by decide), if_neg (by decide), if_neg (by decide), if_neg (by decide),
            if_neg (by decide), if_pos rfl]
          rw [hobj]
          rw [skipWs_cons_notWs _ (by decide)]
          dsimp only
          rw [if_neg (by decide)]
          rw [← hobj, hMembers]
    · intro xs rest hne hlen
      match xs with
      | [] => exact absurd rfl hne
      | [x] =>
        rw [renderArr_single] at hlen ⊢
        rw [parseElems.eq_def]
        dsimp only
        rw [IH1 x (']' :: rest) (by omega)]
        dsimp only
        rw [skipWs_cons_notWs _ (by decide)]
        dsimp only
        rw [if_neg (by decide), if_pos rfl]
      | x :: y :: xs =>
        rw [renderArr_cons] at hlen ⊢
        have hpos := renderJson_length_pos x
        have hlen1 : (renderJson x).length ≤ f := by
          simp only [List.length_append, List.length_cons] at hlen
          omega
        have hlen2 : (renderArr (y :: xs)).length < f := by
          simp only [List.length_append, List.length_cons] at hlen
          omega
        simp only [List.append_assoc, List.cons_append, List.nil_append]
        rw [parseElems.eq_def]
        dsimp only
        rw [IH1 x _ hlen1]
        dsimp only
        rw [skipWs_cons_notWs _ (by decide)]
        dsimp only
        rw [if_pos rfl]
        rw [IH2 (y :: xs) rest (List.cons_ne_nil y xs) hlen2]
    · intro ms rest hne hlen
      match ms with
      | [] => exact absurd rfl hne
      | [m] =>
        rw [renderObj_single] at hlen ⊢
        have hlen1 : (renderJson m.2).length ≤ f := by
          simp only [List.length_cons, List.length_append] at hlen
          omega
        simp only [List.cons_append, List.append_assoc, List.nil_append]
        rw [parseMembers.eq_def]
        dsimp only
        rw [skipWs_cons_notWs _ (by decide)]
        dsimp only
        rw [if_pos rfl]
        rw [parseStringBody_escapeList]
        dsimp only
        rw [skipWs_cons_notWs _ (by decide)]
        dsimp only
        rw [if_pos rfl]
        rw [IH1 m.2 _ hlen1]
        dsimp only
        rw [skipWs_cons_notWs _ (by decide)]
        dsimp only
        rw [if_neg (by decide), if_pos rfl]
      | m :: m2 :: ms =>
        rw [renderObj_cons] at hlen ⊢
        have hlen1 : (renderJson m.2).length ≤ f := by
          simp only [List.length_cons, List.length_append] at hlen
          omega
        have hlen2 : (renderObj (m2 :: ms)).length < f := by
          simp only [List.length_cons, List.length_append] at hlen
          omega
        simp only [List.cons_append, List.append_assoc, List.nil_append]
        rw [parseMembers.eq_def]
        dsimp only
        rw [skipWs_cons_notWs _ (by decide)]
        dsimp only
        rw [if_pos rfl]
        rw [parseStringBody_escapeList]
        dsimp only
        rw [skipWs_cons_notWs _ (by decide)]
        dsimp only
        rw [if_pos rfl]
        rw [IH1 m.2 _ hlen1]
        dsimp only
        rw [skipWs_cons_notWs _ (by decide)]
        dsimp only
        rw [if_pos rfl]
        rw [IH3 (m2 :: ms) rest (List.cons_ne_nil m2 ms) hlen2]

theorem parseJson_renderJson (j : Json) :
    parseJson (String.mk (renderJson j)) = some j := by
  unfold parseJson
  have hdata : (String.mk (renderJson j)).data = renderJson j := rfl
  rw [hdata]
  have h := (parse_render_inversion ((renderJson j).length + 1)).1 j [] (by omega)
  rw [List.append_nil] at h
  rw [h]
  rfl

theorem decodeList_map_str (l : List String) :
    decodeList decodeString (l.map Json.str) = some l := by
  induction l with
  | nil => rfl
  | cons s l ih =>
    rw [List.map_cons, decodeList.eq_def]
    dsimp only [decodeString]
    rw [ih]

theorem iceFromJson_iceToJson (i : Ice) : iceFromJson (iceToJson i) = some i := by
  obtain ⟨d, m, es, a, sd⟩ := i
  cases sd with
  | none =>
    simp [iceFromJson, iceToJson, jsonLookup, decodeString, decodeBoolJ, decodeDateField,
      decodeList_map_str]
  | some dt =>
    simp [iceFromJson, iceToJson, jsonLookup, decodeString, decodeBoolJ, decodeDateField,
      decodeList_map_str]
    rw [parseDate_renderDate]

theorem decodeList_map_iceToJson (l : List Ice) :
    decodeList iceFromJson (l.map iceToJson) = some l := by
  induction l with
  | nil => rfl
  | cons i l ih =>
    rw [List.map_cons, decodeList.eq_def]
    dsimp only
    rw [iceFromJson_iceToJson, ih]

theorem parseIces_write_ices (l : List Ice) : parseIces (write_ices l) = some l := by
  unfold parseIces write_ices
  rw [parseJson_renderJson]
  unfold icesToJson icesFromJson
  dsimp only
  exact decodeList_map_iceToJson l

theorem get_ices_write_ices (l : List Ice) :
    get_ices (some (write_ices l)) = LoadResult.ok l := by
  unfold get_ices
  dsimp only
  rw [parseIces_write_ices]

theorem iceInv_new (d m : String) : iceInv (Ice.new d m) := by
  unfold iceInv Ice.new
  simp

theorem iceInv_applyOp (i : Ice) (op : LifecycleOp) (h : iceInv i) : iceInv (applyOp i op) := by
  cases op with
  | editDescription d => exact h
  | editMessage m => exact h
  | editRecipients es => exact h
  | arm today inputs =>
    show iceInv (activateIceRecord today inputs i)
    unfold activateIceRecord
    cases hd : dateLoop today inputs with
    | none => exact h
    | some t =>
      unfold iceInv Ice.set_date Ice.set_status
      simp
  | disarm confirm =>
    show iceInv (deactivateIceRecord confirm i)
    unfold deactivateIceRecord
    by_cases h1 : i.get_status = false
    · rw [if_pos h1]
      exact h
    · rw [if_neg h1]
      by_cases h2 : confirm = false
      · rw [if_pos h2]
        exact h
      · rw [if_neg h2]
        unfold iceInv Ice.set_date Ice.set_status
        simp

theorem iceInv_foldl (ops : List LifecycleOp) :
    ∀ i : Ice, iceInv i → iceInv (ops.foldl applyOp i) := by
  induction ops with
  | nil => intro i h; exact h
  | cons op ops ih =>
    intro i h
    exact ih _ (iceInv_applyOp i op h)

/-- C1 (counterexample): the store file content `"x"` exists but does not
parse as a record collection, and `get_ices` panics on it (the
`serde_json::from_reader(file).unwrap()` abort) instead of returning the
claimed distinct typed Corrupt failure outcome. -/
theorem load_corrupt_counterexample :
    parseIces "x" = none ∧ get_ices (some "x") = LoadResult.panicked := by decide

/-- C1 (amended): for every store path that exists but whose content fails to
parse as the record collection, `get_ices` panics (uncatchable `unwrap`
fault) rather than returning a typed failure outcome; it never silently
returns an empty (or any) collection. -/
theorem load_corrupt_panics (content : String) (h : parseIces content = none) :
    get_ices (some content) = LoadResult.panicked ∧
    ∀ ices : List Ice, get_ices (some content) ≠ LoadResult.ok ices := by
  have hg : get_ices (some content) = LoadResult.panicked := by
    unfold get_ices
    dsimp only
    rw [h]
  exact ⟨hg, fun ices hok => by rw [hg] at hok; exact LoadResult.noConfusion hok⟩

/-- C1 (witness for the amended claim): the amended claim applied to the
concrete corrupt content `"x"`. -/
theorem load_corrupt_panics_witness :
    get_ices (some "x") = LoadResult.panicked ∧
    ∀ ices : List Ice, get_ices (some "x") ≠ LoadResult.ok ices :=
  load_corrupt_panics "x" (by decide)

/-- C2: starting from `Ice::new` and applying any sequence of complete
lifecycle operations (edit description/message/recipients, arm, disarm), the
invariant `active = true ↔ send_date.isSome` holds at every observable point
— no operation sets one of the pair without the other. -/
theorem lifecycle_active_iff_send_date (d m : String) (ops : List LifecycleOp) :
    iceInv (Ice.new d m) ∧ iceInv (ops.foldl applyOp (Ice.new d m)) :=
  ⟨iceInv_new d m, iceInv_foldl ops _ (iceInv_new d m)⟩

/-- C3: a candidate timestamp that is not strictly later than the fixed
`today` is rejected by the validation step; the prompt loop moves on to the
next input (re-prompting), and a record subjected to only rejected
candidates keeps its `active` flag and prior `send_date` (it is not mutated
at all). -/
theorem activate_rejects_non_future (today t : DateTime) (i : Ice)
    (rest : List (Option DateTime)) (h : DateTime.ltb today t = false) :
    validateDate today (some t) = none ∧
    dateLoop today (some t :: rest) = dateLoop today rest ∧
    activateIceRecord today (some t :: rest) i = activateIceRecord today rest i ∧
    activateIceRecord today [some t] i = i := by
  have hv : validateDate today (some t) = none := by
    unfold validateDate
    dsimp only
    rw [h]
    rfl
  have hl : ∀ r : List (Option DateTime),
      dateLoop today (some t :: r) = dateLoop today r := by
    intro r
    rw [dateLoop.eq_def]
    dsimp only
    rw [hv]
  refine ⟨hv, hl rest, ?_, ?_⟩
  · unfold activateIceRecord
    rw [hl rest]
  · unfold activateIceRecord
    rw [hl [], dateLoop.eq_def]

/-- C3 (witness): a concrete non-future candidate (year 2019 against a 2020
"now") is rejected, the loop proceeds to the next prompt, and the concrete
record is unchanged. -/
theorem activate_rejects_non_future_witness :
    validateDate ⟨2020, 1, 1, 0, 0⟩ (some ⟨2019, 1, 1, 0, 0⟩) = none ∧
    dateLoop ⟨2020, 1, 1, 0, 0⟩ [some ⟨2019, 1, 1, 0, 0⟩, some ⟨2099, 1, 1, 9, 0⟩]
      = dateLoop ⟨2020, 1, 1, 0, 0⟩ [some ⟨2099, 1, 1, 9, 0⟩] ∧
    activateIceRecord ⟨2020, 1, 1, 0, 0⟩ [some ⟨2019, 1, 1, 0, 0⟩, some ⟨2099, 1, 1, 9, 0⟩]
        (⟨"w", "m", [], false, none⟩ : Ice)
      = activateIceRecord ⟨2020, 1, 1, 0, 0⟩ [some ⟨2099, 1, 1, 9, 0⟩]
        (⟨"w", "m", [], false, none⟩ : Ice) ∧
    activateIceRecord ⟨2020, 1, 1, 0, 0⟩ [some ⟨2019, 1, 1, 0, 0⟩]
        (⟨"w", "m", [], false, none⟩ : Ice)
      = (⟨"w", "m", [], false, none⟩ : Ice) :=
  activate_rejects_non_future ⟨2020, 1, 1, 0, 0⟩ ⟨2019, 1, 1, 0, 0⟩
    (⟨"w", "m", [], false, none⟩ : Ice) [some ⟨2099, 1, 1, 9, 0⟩] (by decide)

/-- C4: disarming through `deactivate_ice`: a selected record that is already
inactive yields the `notActive` (NoOp) outcome — distinct from `deactivated`
— and neither the persisted store nor the collection changes (the returned
file state is exactly the input file state, before any write); a selected
active record, once confirmed, is written back with `active = false` and
`send_date = none`. -/
theorem deactivate_inactive_noop (fs : Option String) (ices : List Ice) (selected : Nat)
    (ice : Ice) (confirm : Bool) (hload : get_ices fs = LoadResult.ok ices)
    (hsel : ices.get? selected = some ice) :
    (ice.active = false → deactivate_ice fs selected confirm = (fs, DeactivateResult.notActive)) ∧
    (ice.active = true → confirm = true →
      deactivate_ice fs selected confirm
        = (some (write_ices (ices.set selected ((ice.set_date none).set_status false))),
            DeactivateResult.deactivated) ∧
      ((ice.set_date none).set_status false).active = false ∧
      ((ice.set_date none).set_status false).send_date = none) := by
  have hne : ices.isEmpty = false := by
    cases ices with
    | nil => rw [List.get?_nil] at hsel; exact Option.noConfusion hsel
    | cons a l => rfl
  unfold deactivate_ice
  rw [hload]
  dsimp only
  rw [if_neg (show ¬ ices.isEmpty = true from by rw [hne]; simp)]
  rw [hsel]
  dsimp only
  constructor
  · intro ha
    rw [if_pos (show ice.get_status = false from ha)]
  · intro ha hc
    rw [if_neg (show ¬ ice.get_status = false from by
        show ¬ ice.active = false
        rw [ha]
        simp),
      if_neg (by rw [hc]; simp)]
    exact ⟨rfl, rfl, rfl⟩

/-- C4 (witness): on a store holding one inactive record, disarming it
reports `notActive` and leaves the store content untouched. -/
theorem deactivate_inactive_noop_witness :
    deactivate_ice (some (write_ices [(⟨"w", "m", [], false, none⟩ : Ice)])) 0 true
      = (some (write_ices [(⟨"w", "m", [], false, none⟩ : Ice)]), DeactivateResult.notActive) :=
  (deactivate_inactive_noop (some (write_ices [(⟨"w", "m", [], false, none⟩ : Ice)]))
    [(⟨"w", "m", [], false, none⟩ : Ice)] 0 (⟨"w", "m", [], false, none⟩ : Ice) true
    (by decide) (by decide)).1 rfl

/-- C5: loading a non-existent store path is the distinct typed
`"JSON file does not exist"` error (not a panic), and `create_ice` treats it
as the empty collection: record creation proceeds and the collection is
created with exactly the new record on the first write. -/
theorem load_missing_file_recoverable (description msg : String) :
    get_ices none = LoadResult.err "JSON file does not exist" ∧
    create_ice none description (some msg)
      = (some (write_ices [Ice.new description msg]), CreateResult.created) :=
  ⟨rfl, rfl⟩

/-- C6: persisting a collection and re-loading it yields an equal collection
(every field, timestamps included, round-trips exactly), and composing
`save(load(...))` any number of times on the unmodified persisted content
reproduces byte-identical content. -/
theorem save_load_round_trip (ices : List Ice) :
    get_ices (some (write_ices ices)) = LoadResult.ok ices ∧
    ∀ n : Nat, resaveN n (write_ices ices) = some (write_ices ices) := by
  refine ⟨get_ices_write_ices ices, ?_⟩
  have hr : resave (write_ices ices) = some (write_ices ices) := by
    unfold resave
    rw [parseIces_write_ices]
  intro n
  induction n with
  | zero => rfl
  | succ k ih =>
    rw [resaveN.eq_def]
    dsimp only
    rw [hr]
    exact ih

/-- C7: arming a record that is already active with a validated future
timestamp succeeds without disarming first: the scheduled timestamp is
overwritten with the new value and the record stays active. -/
theorem activate_overwrites_active (today t : DateTime) (i : Ice)
    (rest : List (Option DateTime)) (_hActive : i.active = true)
    (h : DateTime.ltb today t = true) :
    (activateIceRecord today (some t :: rest) i).send_date = some t ∧
    (activateIceRecord today (some t :: rest) i).active = true := by
  have hl : dateLoop today (some t :: rest) = some t := by
    rw [dateLoop.eq_def]
    dsimp only
    unfold validateDate
    dsimp only
    rw [h]
    rfl
  unfold activateIceRecord
  rw [hl]
  exact ⟨rfl, rfl⟩

/-- C7 (witness): a concrete active record with an older schedule, re-armed
with a 2099 timestamp against a 2020 "now": the schedule is replaced and the
record remains active. -/
theorem activate_overwrites_active_witness :
    (activateIceRecord ⟨2020, 1, 1, 0, 0⟩ [some ⟨2099, 1, 1, 9, 0⟩]
        (⟨"a", "b", [], true, some ⟨2021, 5, 5, 5, 5⟩⟩ : Ice)).send_date
      = some ⟨2099, 1, 1, 9, 0⟩ ∧
    (activateIceRecord ⟨2020, 1, 1, 0, 0⟩ [some ⟨2099, 1, 1, 9, 0⟩]
        (⟨"a", "b", [], true, some ⟨2021, 5, 5, 5, 5⟩⟩ : Ice)).active = true :=
  activate_overwrites_active ⟨2020, 1, 1, 0, 0⟩ ⟨2099, 1, 1, 9, 0⟩
    (⟨"a", "b", [], true, some ⟨2021, 5, 5, 5, 5⟩⟩ : Ice) [] rfl (by decide)

/-- C8: the status line is the description, an Active/Inactive label, and —
only for an active record — the scheduled date, rendered in the fixed
`yyyy-mm-dd HH:MM` format inside parentheses.  For an inactive record the
returned string is exactly the description with the Inactive label: the date
segment is omitted entirely, with no "Unknown" text and no placeholder
rendered for it. -/
theorem status_line_date_only_when_active (i : Ice) (d : DateTime) :
    (i.active = false → i.get_status_line = i.description ++ " ~> Inactive ") ∧
    (i.active = true → i.send_date = some d →
      i.get_status_line = i.description ++ " ~> Active (" ++ formatFR d ++ ")") := by
  constructor
  · intro h
    unfold Ice.get_status_line
    rw [if_neg (by rw [h]; simp), if_neg (by rw [h]; simp)]
    rw [show (" ~> Inactive " : String) = " ~> " ++ ("Inactive" ++ (" " ++ "")) from by decide]
    simp only [String.append_assoc]
  · intro h hd
    unfold Ice.get_status_line Ice.get_date
    rw [if_pos (show i.active = true from h), if_pos (show i.active = true from h), hd]
    dsimp only
    rw [show (" ~> Active (" : String) = " ~> " ++ ("Active" ++ (" " ++ "(")) from by decide]
    simp only [String.append_assoc]

/-- C8 (witness): the exact status line of a concrete inactive and a concrete
active record. -/
theorem status_line_date_only_when_active_witness :
    ((⟨"w", "m", [], false, none⟩ : Ice).get_status_line
        = (⟨"w", "m", [], false, none⟩ : Ice).description ++ " ~> Inactive ") ∧
    ((⟨"a", "b", [], true, some ⟨2099, 1, 1, 9, 0⟩⟩ : Ice).get_status_line
        = (⟨"a", "b", [], true, some ⟨2099, 1, 1, 9, 0⟩⟩ : Ice).description
          ++ " ~> Active (" ++ formatFR ⟨2099, 1, 1, 9, 0⟩ ++ ")") :=
  ⟨(status_line_date_only_when_active (⟨"w", "m", [], false, none⟩ : Ice)
      ⟨2099, 1, 1, 9, 0⟩).1 rfl,
    (status_line_date_only_when_active (⟨"a", "b", [], true, some ⟨2099, 1, 1, 9, 0⟩⟩ : Ice)
      ⟨2099, 1, 1, 9, 0⟩).2 rfl rfl⟩

/-- C9: `set_emails` replaces the full recipient list with exactly the given
one (order preserved, duplicates kept, no dedup), and leaves the
description, message, active flag and scheduled timestamp unchanged. -/
theorem set_emails_replaces_list_frame (i : Ice) (l : List String) :
    (i.set_emails l).emails = l ∧
    (i.set_emails l).description = i.description ∧
    (i.set_emails l).message = i.message ∧
    (i.set_emails l).active = i.active ∧
    (i.set_emails l).send_date = i.send_date :=
  ⟨rfl, rfl, rfl, rfl, rfl⟩

/-- C10: within one activation interaction, `today` is sampled from the
wall clock exactly once, before the prompt loop; the whole command depends
only on the clock reading at index 0, so every retried candidate is compared
against that same fixed instant, never against a refreshed reading. -/
theorem activation_now_sampled_once (fs : Option String) (selected : Nat)
    (clock1 clock2 : Nat → DateTime) (inputs : List (Option DateTime))
    (h : clock1 0 = clock2 0) :
    activate_ice fs selected clock1 inputs = activate_ice fs selected clock2 inputs := by
  unfold activate_ice
  rw [h]

/-- C10 (witness): two clocks agreeing at the initial reading but diverging
at every later reading produce identical activation behavior. -/
theorem activation_now_sampled_once_witness :
    activate_ice none 0 (fun _ => ⟨2020, 1, 1, 0, 0⟩) []
      = activate_ice none 0
          (fun n => if n = 0 then ⟨2020, 1, 1, 0, 0⟩ else ⟨2021, 2, 2, 2, 2⟩) [] :=
  activation_now_sampled_once none 0 (fun _ => ⟨2020, 1, 1, 0, 0⟩)
    (fun n => if n = 0 then ⟨2020, 1, 1, 0, 0⟩ else ⟨2021, 2, 2, 2, 2⟩) [] (by decide)
